import Mathlib

set_option maxHeartbeats 1000000

/-!
Verification of the firebase-firestore-helper entity accessor
(`src/index.js`): a per-collection CRUD helper over Firestore with an
optional in-memory cache keyed by document id.

The embedding is per collection (every operation of the source closes over
one `entity` name and touches only the partition `cache[entity]`, so one
partition is modelled as the whole cache state).  Documents are modelled as
JSON-serializable JS objects: insertion-ordered string-keyed records of
primitive values.  On such values the JSON round trip `clone` is the
identity at value level; the reference/aliasing content of `clone` is
modelled separately in a heap embedding (addresses + allocation) further
below.  The Firestore client is the external collaborator: each operation
takes the reply of the single store call it can make as a parameter and
records the store calls it actually issues in a trace, so that
"no store round trip" and "store query issued" are statable.
-/

namespace FFH

/-- JS primitive (JSON-serializable scalar) values: the field values, ids
and cache keys handled by the helper. -/
inductive Prim where
  | pnull
  | pbool (b : Bool)
  | pnum (n : Int)
  | pstr (s : String)
deriving DecidableEq

/-- JS truthiness of a primitive value: null, false, 0 and the empty
string are falsy, everything else is truthy. -/
def Prim.truthy : Prim → Bool
  | .pnull => false
  | .pbool b => b
  | .pnum n => n != 0
  | .pstr s => s != ""

/-- JS string coercion of a primitive, as applied by property access
`cache[entity][id]` to the object key. -/
def Prim.toKey : Prim → String
  | .pnull => "null"
  | .pbool true => "true"
  | .pbool false => "false"
  | .pnum n => toString n
  | .pstr s => s

/-- A document: a JS object, i.e. an insertion-ordered record of own
properties with primitive values. -/
abbrev Doc := List (String × Prim)

/-- Lookup of an own property of a JS object (first matching key). -/
def kvLookup {α : Type} : List (String × α) → String → Option α
  | [], _ => none
  | p :: rest, k => if p.1 = k then some p.2 else kvLookup rest k

/-- Property assignment `o[k] = v` on a JS object: an existing key keeps
its position and is overwritten, a new key is appended. -/
def kvInsert {α : Type} (l : List (String × α)) (k : String) (v : α) :
    List (String × α) :=
  if l.any (fun p => p.1 == k) then
    l.map (fun p => if p.1 == k then (k, v) else p)
  else
    l ++ [(k, v)]

/-- Property removal `delete o[k]` on a JS object. -/
def kvErase {α : Type} (l : List (String × α)) (k : String) :
    List (String × α) :=
  l.filter (fun p => !(p.1 == k))

/-- `Object.values(o)`: the property values in key order. -/
def kvValues {α : Type} (l : List (String × α)) : List α :=
  l.map (fun p => p.2)

/-- Field access `data.f` on a document (absent fields are undefined,
modelled as `none`). -/
def Doc.get (d : Doc) (f : String) : Option Prim :=
  kvLookup d f

/-- The JSON round trip `JSON.parse(JSON.stringify(o))` of `src/index.js`
(`clone`).  On the JSON-serializable values of this model it is the
identity at value level; the fact that it produces a fresh object rather
than a live reference is modelled in the heap embedding below. -/
def clone {α : Type} (o : α) : α := o

/-- Errors surfaced by the accessor: the `id`-missing validation error
thrown by `add`, and errors of the underlying store (kept as an opaque
numeric code and propagated untranslated). -/
inductive Err where
  | idRequired
  | store (code : Nat)
deriving DecidableEq

/-- A filter value: a primitive or an array of primitives (as in
`[field, op, [1, 2, 3]]` membership conditions). -/
inductive FVal where
  | prim (p : Prim)
  | arr (ps : List Prim)
deriving DecidableEq

/-- One Firestore `query.where(field, op, value)` filter. -/
structure Filter where
  field : String
  op : String
  value : FVal
deriving DecidableEq

/-- The dynamic shapes accepted for one element of a `where` list:
a field-equality mapping or a `[field, operator, value]` triple. -/
inductive WhereCond where
  | map (m : List (String × Prim))
  | triple (f : String) (o : String) (v : FVal)
deriving DecidableEq

/-- The dynamic shapes accepted for `params.where`: a single mapping or a
list of conditions. -/
inductive WhereSpec where
  | map (m : List (String × Prim))
  | list (cs : List WhereCond)
deriving DecidableEq

/-- The dynamic shapes accepted for `params.orderBy`: a field name, a
`[field, direction]` pair, a list of such pairs, or a malformed value
(`bad v`: a value that is neither a string nor an array, which the code
of `src/index.js` silently ignores). -/
inductive OrderSpec where
  | str (s : String)
  | pair (f : String) (dir : String)
  | pairs (l : List (String × String))
  | bad (v : Prim)
deriving DecidableEq

/-- A store call issued by the accessor, recorded in operation traces. -/
inductive StoreCall where
  | get (key : String)
  | set (key : String) (d : Doc)
  | update (key : String) (d : Doc)
  | delete (key : String)
  | query (filters : List Filter) (orders : List (String × Option String))
      (lim : Option Int)
  | allDocs
deriving DecidableEq

/-- The cache partition of one collection: a JS object keyed by document
id.  A present key with value `none` is the tombstone written by
`deleteById` (`cache[entity][id] = undefined`), distinct from an absent
key. -/
abbrev Cache := List (String × Option Doc)

/-- Result of one accessor operation: its outcome, the cache partition
afterwards, and the trace of store calls it issued. -/
structure Res (α : Type) where
  out : Except Err α
  cache : Cache
  calls : List StoreCall

/-- `add(data)` of `src/index.js`: fails before any store call when
`data.id` is undefined, otherwise writes the document to the store
(`reply` is the outcome of that `set` call) and, on success with caching
enabled, stores a clone in the partition under the id key. -/
def add (uc : Bool) (d : Doc) (reply : Except Nat Unit) (c : Cache) :
    Res Unit :=
  match Doc.get d "id" with
  | none => ⟨.error .idRequired, c, []⟩
  | some idv =>
    match reply with
    | .error e => ⟨.error (.store e), c, [.set (Prim.toKey idv) d]⟩
    | .ok _ =>
      ⟨.ok (), if uc then kvInsert c (Prim.toKey idv) (some (clone d)) else c,
        [.set (Prim.toKey idv) d]⟩

/-- `getById(id)` of `src/index.js`: with caching enabled and a partition
entry present (tombstones included) it returns a clone of the entry with
no store call; otherwise it fetches from the store (`reply`, where `none`
is the not-found sentinel `undefined`), caches a clone of the fetched
value when caching is enabled, and returns the fetched value. -/
def getById (uc : Bool) (id : Prim) (reply : Except Nat (Option Doc))
    (c : Cache) : Res (Option Doc) :=
  match uc, kvLookup c (Prim.toKey id) with
  | true, some entry => ⟨.ok (clone entry), c, []⟩
  | _, _ =>
    match reply with
    | .error e => ⟨.error (.store e), c, [.get (Prim.toKey id)]⟩
    | .ok data =>
      ⟨.ok data,
        if uc then kvInsert c (Prim.toKey id) (clone data) else c,
        [.get (Prim.toKey id)]⟩

/-- The filters the `where` translation of `getBy` passes to the store:
a mapping becomes one equality filter (operator `=`) per key; a list
contributes, per element, the equality filters of a mapping or a
`[field, operator, value]` triple verbatim; all concatenated into the
conjunction of one query. -/
def whereFilters : Option WhereSpec → List Filter
  | none => []
  | some (.map m) => m.map (fun kv => ⟨kv.1, "=", FVal.prim kv.2⟩)
  | some (.list cs) =>
    (cs.map (fun cond =>
      match cond with
      | .map m => m.map (fun kv => ⟨kv.1, "=", FVal.prim kv.2⟩)
      | .triple f o v => [Filter.mk f o v])).flatten

/-- The orderings the `orderBy` translation of `getBy` passes to the
store (field, optional explicit direction).  A string orders by that field
(default direction); a pair is spread into `orderBy(field, direction)`;
a list of pairs is applied in order; a malformed value falls through all
shape tests of the code and adds no ordering (the empty string is falsy
and skipped by `if (params.orderBy)`). -/
def orderings : Option OrderSpec → List (String × Option String)
  | none => []
  | some (.str s) => if s = "" then [] else [(s, none)]
  | some (.pair f dir) => [(f, some dir)]
  | some (.pairs l) => l.map (fun pr => (pr.1, some pr.2))
  | some (.bad _) => []

/-- The limit `getBy` passes to the store: `query.limit` is applied only
when `params.limit` is truthy, so an absent or zero limit leaves the
query uncapped. -/
def appliedLimit : Option Int → Option Int
  | none => none
  | some l => if l = 0 then none else some l

/-- The query descriptor accepted by `getBy` (`where` is a reserved word
in Lean, hence the field name `whereSpec`). -/
structure GetByParams where
  whereSpec : Option WhereSpec
  orderBy : Option OrderSpec
  limit : Option Int

/-- The shaped result of `getBy`: a bare document (limit 1, exactly one
match), the JS `null` (limit 1, no match), or a list of documents. -/
inductive GetByOut where
  | one (d : Doc)
  | nullRes
  | list (ds : List Doc)
deriving DecidableEq

/-- The cache write pass shared by `getBy` and `getAll` with caching
enabled: every snapshot document is cloned into the partition under its
id. -/
def fillCache (c : Cache) (snap : List (String × Doc)) : Cache :=
  snap.foldl (fun c pr => kvInsert c pr.1 (some (clone pr.2))) c

/-- `getBy(params)` of `src/index.js`: translates the descriptor, issues
one store query (`reply` is its snapshot, documents paired with their
ids), caches each result document when caching is enabled, and shapes the
result: with `limit === 1` a single match is returned bare, zero matches
return `null`, and more than one match falls back to the full list; any
other limit always returns a list. -/
def getBy (uc : Bool) (p : GetByParams)
    (reply : Except Nat (List (String × Doc))) (c : Cache) : Res GetByOut :=
  let fs := whereFilters p.whereSpec
  let os := orderings p.orderBy
  let lim := appliedLimit p.limit
  match reply with
  | .error e => ⟨.error (.store e), c, [.query fs os lim]⟩
  | .ok snap =>
    let c1 := if uc then fillCache c snap else c
    let data := snap.map (fun pr => pr.2)
    if p.limit = some 1 then
      match data with
      | [d] => ⟨.ok (.one (clone d)), c1, [.query fs os lim]⟩
      | [] => ⟨.ok .nullRes, c1, [.query fs os lim]⟩
      | ds => ⟨.ok (.list (clone ds)), c1, [.query fs os lim]⟩
    else
      ⟨.ok (.list (clone data)), c1, [.query fs os lim]⟩

/-- `getAll()` of `src/index.js`: fetches the whole collection (`reply`),
never reading the cache for input.  With caching enabled it clones every
fetched document into the partition and returns a clone of
`Object.values` of the partition (so retained entries appear too, and a
tombstone value surfaces as the JSON `null`, here `none`); otherwise it
returns the raw fetched list. -/
def getAll (uc : Bool) (reply : Except Nat (List (String × Doc)))
    (c : Cache) : Res (List (Option Doc)) :=
  match reply with
  | .error e => ⟨.error (.store e), c, [.allDocs]⟩
  | .ok snap =>
    if uc then
      let c1 := fillCache c snap
      ⟨.ok (clone (kvValues c1)), c1, [.allDocs]⟩
    else
      ⟨.ok (clone (snap.map (fun pr => some pr.2))), c, [.allDocs]⟩

/-- `deleteById(id)` of `src/index.js`: deletes the store document
(`reply` is that outcome) and, on success with caching enabled, writes
the tombstone `cache[entity][id] = undefined`. -/
def deleteById (uc : Bool) (id : Prim) (reply : Except Nat Unit)
    (c : Cache) : Res Unit :=
  match reply with
  | .error e => ⟨.error (.store e), c, [.delete (Prim.toKey id)]⟩
  | .ok _ =>
    ⟨.ok (), if uc then kvInsert c (Prim.toKey id) none else c,
      [.delete (Prim.toKey id)]⟩

/-- `editById(id, newData)` of `src/index.js`: merge-updates the store
document (`reply` is that outcome) and, on success with caching enabled,
removes the partition entry (`delete cache[entity][id]`) instead of
merging locally. -/
def editById (uc : Bool) (id : Prim) (newData : Doc)
    (reply : Except Nat Unit) (c : Cache) : Res Unit :=
  match reply with
  | .error e => ⟨.error (.store e), c, [.update (Prim.toKey id) newData]⟩
  | .ok _ =>
    ⟨.ok (), if uc then kvErase c (Prim.toKey id) else c,
      [.update (Prim.toKey id) newData]⟩

/-- `clearCache(key)` of `src/index.js`: a no-op with caching disabled;
with a truthy key it deletes that single entry, otherwise (absent or
falsy key) it replaces the whole partition with a fresh empty object. -/
def clearCache (uc : Bool) (key : Option Prim) (c : Cache) : Cache :=
  if !uc then c
  else
    match key with
    | some k => if Prim.truthy k then kvErase c (Prim.toKey k) else []
    | none => []

/-!
Heap embedding for the aliasing/deep-copy invariant.  JS objects are
mutable cells: an object is an address into a heap of document values,
object creation (including the fresh object a JSON round trip or
`doc.data()` builds) is allocation of a fresh address, and mutating an
object rewrites the value at its address.  The cache partition here maps
an id key to the address of its entry (`none` being the tombstone, which
holds no object).  The operations below are the caching-enabled
(`useCache: true`) accessors of `src/index.js`, re-expressed over this
heap; their cache writes and returned values allocate exactly where the
code calls `clone` or receives a fresh object from Firestore.
-/

/-- A heap of JS objects: an allocation counter and the document value
stored at each allocated address. -/
structure Heap where
  next : Nat
  val : Nat → Doc

/-- Allocation of a fresh object holding value `d`. -/
def Heap.alloc (h : Heap) (d : Doc) : Nat × Heap :=
  (h.next, ⟨h.next + 1, fun a => if a = h.next then d else h.val a⟩)

/-- Mutation of the object at address `a` (the caller rewriting an object
it holds a reference to). -/
def Heap.write (h : Heap) (a : Nat) (d : Doc) : Heap :=
  ⟨h.next, fun x => if x = a then d else h.val x⟩

/-- The cache partition in the heap embedding: id key to entry address,
`none` being the tombstone. -/
abbrev RCache := List (String × Option Nat)

/-- The addresses held live by the cache partition. -/
def cacheAddrs (c : RCache) : List Nat :=
  c.filterMap (fun p => p.2)

/-- Well-formedness of a partition against a heap: every address it holds
is allocated. -/
abbrev WFr (c : RCache) (h : Heap) : Prop :=
  ∀ a ∈ cacheAddrs c, a < h.next

/-- Result of a heap-model operation: outcome, partition and heap
afterwards. -/
structure HRes (α : Type) where
  out : α
  cache : RCache
  heap : Heap

/-- The document value an operation hands to the caller: the contents of
the returned address (or the undefined sentinel). -/
def outVal (r : HRes (Option Nat)) : Option Doc :=
  r.out.map r.heap.val

/-- `add(data)` in the heap embedding (caching enabled): the caller
supplies its own object at address `aIn`; after the store write the
partition receives `clone(data)`, a fresh object copying the value at
`aIn`. -/
def addH (aIn : Nat) (c : RCache) (h : Heap) : HRes (Except Err Unit) :=
  match Doc.get (h.val aIn) "id" with
  | none => ⟨.error .idRequired, c, h⟩
  | some idv =>
    ⟨.ok (), kvInsert c (Prim.toKey idv) (some (h.alloc (h.val aIn)).1),
      (h.alloc (h.val aIn)).2⟩

/-- `getById(id)` in the heap embedding (caching enabled).  A present
entry is returned as `clone(cache[entity][id])`: a fresh object copying
the entry value (a tombstone clones to the undefined sentinel).  On a
miss, the fetched document `d` (`reply`) arrives as a fresh object from
the store and `clone(data)` allocates a second fresh object for the
cache. -/
def getByIdH (k : String) (reply : Option Doc) (c : RCache) (h : Heap) :
    HRes (Option Nat) :=
  match kvLookup c k with
  | some none => ⟨none, c, h⟩
  | some (some a) =>
    ⟨some (h.alloc (h.val a)).1, c, (h.alloc (h.val a)).2⟩
  | none =>
    match reply with
    | none => ⟨none, kvInsert c k none, h⟩
    | some d =>
      ⟨some (h.alloc d).1,
        kvInsert c k (some ((h.alloc d).2.alloc d).1),
        ((h.alloc d).2.alloc d).2⟩

/-- The cache write loop of `getBy` with caching enabled: every snapshot
document is cloned into a fresh object whose address overwrites the
partition entry for its id, and that same address is pushed onto the
`data` list (`data.push(cache[entity][doc.id])`). -/
def cachePhase : List (String × Doc) → RCache → Heap →
    RCache × Heap × List Nat
  | [], c, h => (c, h, [])
  | pr :: rest, c, h =>
    let a := (h.alloc pr.2).1
    let t := cachePhase rest (kvInsert c pr.1 (some a)) (h.alloc pr.2).2
    (t.1, t.2.1, a :: t.2.2)

/-- `clone` of an array of objects: the JSON round trip rebuilds every
element as a fresh object with the same value. -/
def allocCopies : List Nat → Heap → List Nat × Heap
  | [], h => ([], h)
  | a :: rest, h =>
    let t := allocCopies rest (h.alloc (h.val a)).2
    ((h.alloc (h.val a)).1 :: t.1, t.2)

/-- The shaped result of `getBy` in the heap embedding. -/
inductive GetByOutH where
  | one (r : Nat)
  | nullRes
  | list (rs : List Nat)

/-- The addresses a shaped `getBy` result hands to the caller. -/
def outAddrs : GetByOutH → List Nat
  | .one r => [r]
  | .nullRes => []
  | .list rs => rs

/-- `getBy` in the heap embedding (caching enabled), after the store
query returned `snap`: the cache write loop runs, then the result is
shaped, every returned object being a clone (`clone(data[0])` or
`clone(data)`) of the cache entries collected in `data`. -/
def getByH (lim : Option Int) (snap : List (String × Doc)) (c : RCache)
    (h : Heap) : HRes GetByOutH :=
  let t := cachePhase snap c h
  if lim = some 1 then
    match t.2.2 with
    | [a] =>
      ⟨.one ((t.2.1).alloc ((t.2.1).val a)).1, t.1,
        ((t.2.1).alloc ((t.2.1).val a)).2⟩
    | [] => ⟨.nullRes, t.1, t.2.1⟩
    | as => ⟨.list (allocCopies as t.2.1).1, t.1, (allocCopies as t.2.1).2⟩
  else
    ⟨.list (allocCopies t.2.2 t.2.1).1, t.1, (allocCopies t.2.2 t.2.1).2⟩

/-- `clone(Object.values(cache[entity]))`: every object-valued entry is
rebuilt as a fresh object, a tombstone (undefined value) surfaces as the
JSON `null`, carrying no address. -/
def valuesClone : RCache → Heap → List (Option Nat) × Heap
  | [], h => ([], h)
  | p :: rest, h =>
    match p.2 with
    | none =>
      let t := valuesClone rest h
      (none :: t.1, t.2)
    | some a =>
      let t := valuesClone rest (h.alloc (h.val a)).2
      (some (h.alloc (h.val a)).1 :: t.1, t.2)

/-- `getAll` in the heap embedding (caching enabled), after the store
returned the collection snapshot `snap`: the cache write loop runs and
the caller receives a clone of the partition values. -/
def getAllH (snap : List (String × Doc)) (c : RCache) (h : Heap) :
    HRes (List (Option Nat)) :=
  let t := cachePhase snap c h
  ⟨(valuesClone t.1 t.2.1).1, t.1, (valuesClone t.1 t.2.1).2⟩

/-- Concrete heap used to exercise the heap-model theorems. -/
def wDoc : Doc := [("id", Prim.pstr "x")]

/-- Concrete partition used to exercise the heap-model theorems. -/
def wCache : RCache := [("x", some 0)]

/-- Concrete heap state used to exercise the heap-model theorems. -/
def wHeap : Heap := ⟨1, fun _ => wDoc⟩

/-! Lemmas about the JS-object helpers. -/

theorem kvLookup_any_false {α : Type} (l : List (String × α)) (k : String)
    (h : l.any (fun p => p.1 == k) = false) : kvLookup l k = none := by
  induction l with
  | nil => rfl
  | cons p rest ih =>
    simp only [List.any_cons, Bool.or_eq_false_iff] at h
    have hne : p.1 ≠ k := by simpa using h.1
    simp only [kvLookup, if_neg hne]
    exact ih h.2

theorem kvLookup_append {α : Type} (l1 l2 : List (String × α)) (k : String) :
    kvLookup (l1 ++ l2) k =
      match kvLookup l1 k with
      | some v => some v
      | none => kvLookup l2 k := by
  induction l1 with
  | nil => rfl
  | cons p rest ih =>
    by_cases hk : p.1 = k <;> simp [kvLookup, hk, ih]

theorem kvLookup_cons {α : Type} (p : String × α) (rest : List (String × α))
    (k : String) :
    kvLookup (p :: rest) k = if p.1 = k then some p.2 else kvLookup rest k :=
  rfl

theorem kvLookup_upd_self {α : Type} (l : List (String × α)) (k : String)
    (v : α) (h : l.any (fun p => p.1 == k) = true) :
    kvLookup (l.map (fun p => if p.1 == k then (k, v) else p)) k = some v := by
  induction l with
  | nil => simp at h
  | cons p rest ih =>
    rw [List.map_cons]
    by_cases hk : (p.1 == k) = true
    · rw [if_pos hk, kvLookup_cons, if_pos rfl]
    · rw [if_neg hk, kvLookup_cons, if_neg (by simpa using hk)]
      apply ih
      have hb : (p.1 == k) = false := by
        cases hcase : (p.1 == k) with
        | false => rfl
        | true => exact absurd hcase hk
      simpa [List.any_cons, hb] using h

theorem kvLookup_upd_ne {α : Type} (l : List (String × α)) (k k2 : String)
    (v : α) (h : k2 ≠ k) :
    kvLookup (l.map (fun p => if p.1 == k then (k, v) else p)) k2 =
      kvLookup l k2 := by
  induction l with
  | nil => rfl
  | cons p rest ih =>
    rw [List.map_cons]
    by_cases hk : (p.1 == k) = true
    · rw [if_pos hk, kvLookup_cons, kvLookup_cons]
      have hk1 : p.1 = k := by simpa using hk
      rw [if_neg (fun e : k = k2 => h e.symm),
        if_neg (by rw [hk1]; exact fun e : k = k2 => h e.symm)]
      exact ih
    · rw [if_neg hk, kvLookup_cons, kvLookup_cons]
      by_cases hp : p.1 = k2
      · rw [if_pos hp, if_pos hp]
      · rw [if_neg hp, if_neg hp]
        exact ih

theorem kvLookup_insert {α : Type} (l : List (String × α)) (k k2 : String)
    (v : α) :
    kvLookup (kvInsert l k v) k2 =
      if k2 = k then some v else kvLookup l k2 := by
  unfold kvInsert
  by_cases ha : l.any (fun p => p.1 == k) = true
  · rw [if_pos ha]
    by_cases hk : k2 = k
    · subst hk
      rw [if_pos rfl, kvLookup_upd_self l k2 v ha]
    · rw [if_neg hk, kvLookup_upd_ne l k k2 v hk]
  · rw [if_neg ha]
    have ha2 : l.any (fun p => p.1 == k) = false := by
      cases hcase : l.any (fun p => p.1 == k) with
      | false => rfl
      | true => exact absurd hcase ha
    have hnone : kvLookup l k = none := kvLookup_any_false l k ha2
    rw [kvLookup_append]
    by_cases hk : k2 = k
    · subst hk
      rw [hnone, if_pos rfl]
      rw [kvLookup_cons, if_pos rfl]
    · rw [if_neg hk]
      have hkk : k ≠ k2 := fun e => hk e.symm
      cases hcase : kvLookup l k2 with
      | some w => simp
      | none =>
        simp only [kvLookup_cons, if_neg hkk]
        rfl

theorem kvLookup_insert_self {α : Type} (l : List (String × α)) (k : String)
    (v : α) : kvLookup (kvInsert l k v) k = some v := by
  rw [kvLookup_insert, if_pos rfl]

theorem kvLookup_insert_ne {α : Type} (l : List (String × α)) (k k2 : String)
    (v : α) (h : k2 ≠ k) : kvLookup (kvInsert l k v) k2 = kvLookup l k2 := by
  rw [kvLookup_insert, if_neg h]

theorem kvLookup_erase_self {α : Type} (l : List (String × α)) (k : String) :
    kvLookup (kvErase l k) k = none := by
  induction l with
  | nil => rfl
  | cons p rest ih =>
    unfold kvErase at ih ⊢
    rw [List.filter_cons]
    by_cases hk : (p.1 == k) = true
    · rw [if_neg (by simp [hk])]
      exact ih
    · rw [if_pos (by simp [hk]), kvLookup_cons, if_neg (by simpa using hk)]
      exact ih

theorem kvLookup_erase_ne {α : Type} (l : List (String × α)) (k k2 : String)
    (h : k2 ≠ k) : kvLookup (kvErase l k) k2 = kvLookup l k2 := by
  induction l with
  | nil => rfl
  | cons p rest ih =>
    unfold kvErase at ih ⊢
    rw [List.filter_cons]
    by_cases hk : (p.1 == k) = true
    · rw [if_neg (by simp [hk])]
      have hp : p.1 ≠ k2 := by
        have hk1 : p.1 = k := by simpa using hk
        rw [hk1]
        exact fun e => h e.symm
      rw [show kvLookup (p :: rest) k2 =
          if p.1 = k2 then some p.2 else kvLookup rest k2 from rfl,
        if_neg hp]
      exact ih
    · rw [if_pos (by simp [hk]), kvLookup_cons, kvLookup_cons]
      by_cases hp : p.1 = k2
      · rw [if_pos hp, if_pos hp]
      · rw [if_neg hp, if_neg hp]
        exact ih

theorem fillCache_cons (c : Cache) (pr : String × Doc)
    (rest : List (String × Doc)) :
    fillCache c (pr :: rest) =
      fillCache (kvInsert c pr.1 (some (clone pr.2))) rest := rfl

theorem fillCache_lookup_notin (c : Cache) (snap : List (String × Doc))
    (k : String) (h : k ∉ snap.map (fun pr => pr.1)) :
    kvLookup (fillCache c snap) k = kvLookup c k := by
  induction snap generalizing c with
  | nil => rfl
  | cons pr rest ih =>
    simp only [List.map_cons, List.mem_cons, not_or] at h
    rw [fillCache_cons, ih _ h.2]
    exact kvLookup_insert_ne _ _ _ _ h.1

theorem fillCache_lookup_mem (c : Cache) (snap : List (String × Doc))
    (k : String) (d : Doc) (hnd : (snap.map (fun pr => pr.1)).Nodup)
    (hmem : (k, d) ∈ snap) :
    kvLookup (fillCache c snap) k = some (some d) := by
  induction snap generalizing c with
  | nil => cases hmem
  | cons pr rest ih =>
    rw [fillCache_cons]
    rw [List.map_cons] at hnd
    replace hnd := List.nodup_cons.mp hnd
    rcases List.mem_cons.mp hmem with heq | htail
    · have hk : k ∉ rest.map (fun pr => pr.1) := by
        rw [show k = pr.1 from congrArg Prod.fst heq]
        exact hnd.1
      rw [fillCache_lookup_notin _ _ _ hk]
      rw [show pr = (k, d) from heq.symm]
      exact kvLookup_insert_self _ _ _
    · exact ih _ hnd.2 htail

/-! Lemmas about the heap embedding. -/

theorem alloc_fst (h : Heap) (d : Doc) : (h.alloc d).1 = h.next := rfl

theorem alloc_next (h : Heap) (d : Doc) : (h.alloc d).2.next = h.next + 1 :=
  rfl

theorem alloc_val_self (h : Heap) (d : Doc) : (h.alloc d).2.val h.next = d :=
  by simp [Heap.alloc]

theorem alloc_val_lt (h : Heap) (d : Doc) (a : Nat) (ha : a < h.next) :
    (h.alloc d).2.val a = h.val a := by
  simp only [Heap.alloc]
  exact if_neg (Nat.ne_of_lt ha)

theorem write_next (h : Heap) (a : Nat) (d : Doc) :
    (h.write a d).next = h.next := rfl

theorem write_val_ne (h : Heap) (a b : Nat) (d : Doc) (hne : b ≠ a) :
    (h.write a d).val b = h.val b := by
  simp only [Heap.write]
  exact if_neg hne

theorem mem_cacheAddrs_of_lookup {c : RCache} {k : String} {a : Nat}
    (h : kvLookup c k = some (some a)) : a ∈ cacheAddrs c := by
  induction c with
  | nil => cases h
  | cons p rest ih =>
    unfold kvLookup at h
    by_cases hk : p.1 = k
    · rw [if_pos hk] at h
      exact List.mem_filterMap.mpr ⟨p, List.mem_cons_self _ _, Option.some.inj h⟩
    · rw [if_neg hk] at h
      rcases List.mem_filterMap.mp (ih h) with ⟨q, hq, hqa⟩
      exact List.mem_filterMap.mpr ⟨q, List.mem_cons_of_mem _ hq, hqa⟩

theorem cacheAddrs_insert {c : RCache} {k : String} {b : Nat} {a : Nat}
    (h : a ∈ cacheAddrs (kvInsert c k (some b))) :
    a = b ∨ a ∈ cacheAddrs c := by
  unfold kvInsert at h
  by_cases hany : c.any (fun p => p.1 == k) = true
  · rw [if_pos hany] at h
    rcases List.mem_filterMap.mp h with ⟨p, hp, hpa⟩
    rcases List.mem_map.mp hp with ⟨q, hq, hqp⟩
    by_cases hqk : (q.1 == k) = true
    · rw [if_pos hqk] at hqp
      left
      rw [← hqp] at hpa
      exact (Option.some.inj hpa).symm
    · rw [if_neg hqk] at hqp
      right
      exact List.mem_filterMap.mpr ⟨q, hq, hqp ▸ hpa⟩
  · rw [if_neg hany] at h
    unfold cacheAddrs at h
    rw [List.filterMap_append] at h
    rcases List.mem_append.mp h with h1 | h2
    · right; exact h1
    · left
      simpa using h2

theorem WFr_of_le {c : RCache} {h h2 : Heap} (hwf : WFr c h)
    (hle : h.next ≤ h2.next) : WFr c h2 :=
  fun a ha => lt_of_lt_of_le (hwf a ha) hle

theorem cachePhase_cons (pr : String × Doc) (rest : List (String × Doc))
    (c : RCache) (h : Heap) :
    cachePhase (pr :: rest) c h =
      ((cachePhase rest (kvInsert c pr.1 (some (h.alloc pr.2).1))
          (h.alloc pr.2).2).1,
       (cachePhase rest (kvInsert c pr.1 (some (h.alloc pr.2).1))
          (h.alloc pr.2).2).2.1,
       (h.alloc pr.2).1 ::
         (cachePhase rest (kvInsert c pr.1 (some (h.alloc pr.2).1))
           (h.alloc pr.2).2).2.2) := rfl

theorem cachePhase_next_le (snap : List (String × Doc)) :
    ∀ (c : RCache) (h : Heap), h.next ≤ (cachePhase snap c h).2.1.next := by
  induction snap with
  | nil => intro c h; exact le_refl _
  | cons pr rest ih =>
    intro c h
    rw [cachePhase_cons]
    calc h.next ≤ (h.alloc pr.2).2.next := Nat.le_succ _
      _ ≤ _ := ih _ _

theorem cachePhase_val_lt (snap : List (String × Doc)) :
    ∀ (c : RCache) (h : Heap) (a : Nat), a < h.next →
      (cachePhase snap c h).2.1.val a = h.val a := by
  induction snap with
  | nil => intro c h a _; rfl
  | cons pr rest ih =>
    intro c h a ha
    rw [cachePhase_cons]
    rw [ih _ _ a (lt_trans ha (Nat.lt_succ_self _))]
    exact alloc_val_lt h pr.2 a ha

theorem cachePhase_wf (snap : List (String × Doc)) :
    ∀ (c : RCache) (h : Heap), WFr c h →
      WFr (cachePhase snap c h).1 (cachePhase snap c h).2.1 := by
  induction snap with
  | nil => intro c h hwf; exact hwf
  | cons pr rest ih =>
    intro c h hwf
    rw [cachePhase_cons]
    apply ih
    intro a ha
    rcases cacheAddrs_insert ha with rfl | hmem
    · exact Nat.lt_succ_self _
    · exact Nat.lt_succ_of_lt (hwf a hmem)

theorem cachePhase_data_lt (snap : List (String × Doc)) :
    ∀ (c : RCache) (h : Heap) (a : Nat), a ∈ (cachePhase snap c h).2.2 →
      a < (cachePhase snap c h).2.1.next := by
  induction snap with
  | nil => intro c h a ha; cases ha
  | cons pr rest ih =>
    intro c h a ha
    rw [cachePhase_cons] at ha ⊢
    rcases List.mem_cons.mp ha with rfl | htail
    · calc (h.alloc pr.2).1 < (h.alloc pr.2).2.next := Nat.lt_succ_self _
        _ ≤ _ := cachePhase_next_le rest _ _
    · exact ih _ _ a htail

theorem allocCopies_cons (a : Nat) (rest : List Nat) (h : Heap) :
    allocCopies (a :: rest) h =
      ((h.alloc (h.val a)).1 :: (allocCopies rest (h.alloc (h.val a)).2).1,
       (allocCopies rest (h.alloc (h.val a)).2).2) := rfl

theorem allocCopies_next_le (l : List Nat) :
    ∀ h : Heap, h.next ≤ (allocCopies l h).2.next := by
  induction l with
  | nil => intro h; exact le_refl _
  | cons a rest ih =>
    intro h
    rw [allocCopies_cons]
    calc h.next ≤ (h.alloc (h.val a)).2.next := Nat.le_succ _
      _ ≤ _ := ih _

theorem allocCopies_out_ge (l : List Nat) :
    ∀ (h : Heap) (r : Nat), r ∈ (allocCopies l h).1 → h.next ≤ r := by
  induction l with
  | nil => intro h r hr; cases hr
  | cons a rest ih =>
    intro h r hr
    rw [allocCopies_cons] at hr
    rcases List.mem_cons.mp hr with rfl | htail
    · exact le_refl _
    · exact le_trans (Nat.le_succ _) (ih _ r htail)

theorem valuesClone_cons (p : String × Option Nat) (rest : RCache)
    (h : Heap) :
    valuesClone (p :: rest) h =
      match p.2 with
      | none => (none :: (valuesClone rest h).1, (valuesClone rest h).2)
      | some a =>
        (some (h.alloc (h.val a)).1 ::
           (valuesClone rest (h.alloc (h.val a)).2).1,
         (valuesClone rest (h.alloc (h.val a)).2).2) := rfl

theorem valuesClone_next_le (l : RCache) :
    ∀ h : Heap, h.next ≤ (valuesClone l h).2.next := by
  induction l with
  | nil => intro h; exact le_refl _
  | cons p rest ih =>
    intro h
    rw [valuesClone_cons]
    cases hp : p.2 with
    | none => exact ih _
    | some a =>
      calc h.next ≤ (h.alloc (h.val a)).2.next := Nat.le_succ _
        _ ≤ _ := ih _

theorem valuesClone_out_ge (l : RCache) :
    ∀ (h : Heap) (r : Nat), some r ∈ (valuesClone l h).1 → h.next ≤ r := by
  induction l with
  | nil => intro h r hr; cases hr
  | cons p rest ih =>
    intro h r hr
    rw [valuesClone_cons] at hr
    cases hp : p.2 with
    | none =>
      rw [hp] at hr
      rcases List.mem_cons.mp hr with heq | htail
      · cases heq
      · exact ih _ r htail
    | some a =>
      rw [hp] at hr
      rcases List.mem_cons.mp hr with heq | htail
      · rw [show r = (h.alloc (h.val a)).1 from Option.some.inj heq]
        exact le_refl _
      · exact le_trans (Nat.le_succ _) (ih _ r htail)

/-! The claims. -/

/-- C2: for every `getBy` call with limit exactly 1, the result is `null`
when the query yields zero documents, the single document itself when it
yields exactly one, and the full list when it yields more than one; for
any other limit value, including an absent limit, `getBy` returns a list,
possibly empty. -/
theorem C2_limit_one_shaping (uc : Bool) (p : GetByParams)
    (snap : List (String × Doc)) (c : Cache) :
    (getBy uc p (.ok snap) c).out = Except.ok (
      if p.limit = some 1 then
        match snap.map (fun pr => pr.2) with
        | [d] => GetByOut.one d
        | [] => GetByOut.nullRes
        | ds => GetByOut.list ds
      else GetByOut.list (snap.map (fun pr => pr.2))) := by
  unfold getBy
  by_cases hl : p.limit = some 1
  · simp only [hl, if_pos]
    generalize snap.map (fun pr => pr.2) = data
    rcases data with _ | ⟨d, _ | ⟨d2, ds⟩⟩ <;> rfl
  · simp only [hl, if_neg, if_false]
    rfl

/-- C4 counterexample: a `getBy` whose `orderBy` is the malformed value
42 (neither a string nor an array) does not fail — it succeeds and a
store query is issued — contradicting the claim that such a call fails
with QueryShapeError and issues no store query. -/
theorem C4_malformed_orderBy_counterexample :
    (getBy true ⟨none, some (OrderSpec.bad (Prim.pnum 42)), none⟩
        (.ok []) []).out = .ok (GetByOut.list []) ∧
    (getBy true ⟨none, some (OrderSpec.bad (Prim.pnum 42)), none⟩
        (.ok []) []).calls = [StoreCall.query [] [] none] :=
  ⟨rfl, rfl⟩

/-- C4 (amended): a `getBy` whose `orderBy` is present but malformed
(neither a string nor an array) is silently ignored: the call behaves
exactly as if `orderBy` were absent — no error is raised, no ordering is
applied, and the store query is still issued. -/
theorem C4_malformed_orderBy_ignored (uc : Bool) (w : Option WhereSpec)
    (v : Prim) (lim : Option Int)
    (reply : Except Nat (List (String × Doc))) (c : Cache) :
    getBy uc ⟨w, some (OrderSpec.bad v), lim⟩ reply c =
      getBy uc ⟨w, none, lim⟩ reply c := rfl

/-- C5: for every `getBy` call, the `where` descriptor is translated into
the filters of one conjunctive store query: a single mapping yields one
equality filter per key; a list yields, per element, either the equality
filters of a mapping or a 3-element `[field, operator, value]` triple
passed verbatim; all concatenated into the single query issued. -/
theorem C5_where_translation (uc : Bool) (p : GetByParams)
    (reply : Except Nat (List (String × Doc))) (c : Cache) :
    (getBy uc p reply c).calls =
      [StoreCall.query
        (match p.whereSpec with
         | none => []
         | some (WhereSpec.map m) =>
           m.map (fun kv => Filter.mk kv.1 "=" (FVal.prim kv.2))
         | some (WhereSpec.list cs) =>
           (cs.map (fun cond =>
             match cond with
             | WhereCond.map m =>
               m.map (fun kv => Filter.mk kv.1 "=" (FVal.prim kv.2))
             | WhereCond.triple f o v => [Filter.mk f o v])).flatten)
        (orderings p.orderBy) (appliedLimit p.limit)] := by
  unfold getBy whereFilters
  cases reply with
  | error e => rfl
  | ok snap =>
    by_cases hl : p.limit = some 1
    · simp only [hl, if_pos]
      generalize snap.map (fun pr => pr.2) = data
      rcases data with _ | ⟨d, _ | ⟨d2, ds⟩⟩ <;> rfl
    · simp [hl]

/-- C6: `deleteById(k)` with caching enabled writes the tombstone into
the partition entry for `k`, and a subsequent `getById(k)` returns the
not-found sentinel (`undefined`, modelled `none`) without issuing any
store call. -/
theorem C6_delete_tombstone (id : Prim) (c : Cache)
    (reply2 : Except Nat (Option Doc)) :
    (deleteById true id (.ok ()) c).cache =
      kvInsert c (Prim.toKey id) none ∧
    (getById true id reply2 (deleteById true id (.ok ()) c).cache).out =
      .ok none ∧
    (getById true id reply2 (deleteById true id (.ok ()) c).cache).calls =
      [] := by
  have h : kvLookup (kvInsert c (Prim.toKey id) none) (Prim.toKey id) =
      some none := kvLookup_insert_self _ _ _
  have h2 : getById true id reply2 (kvInsert c (Prim.toKey id) none) =
      ⟨.ok none, kvInsert c (Prim.toKey id) none, []⟩ := by
    unfold getById
    rw [h]
    rfl
  exact ⟨rfl, by rw [show (deleteById true id (.ok ()) c).cache =
      kvInsert c (Prim.toKey id) none from rfl, h2],
    by rw [show (deleteById true id (.ok ()) c).cache =
      kvInsert c (Prim.toKey id) none from rfl, h2]⟩

/-- C7: `editById(k, partial)` with caching enabled issues the store
merge-update and removes (does not tombstone) the partition entry for
`k`, so the next `getById(k)` always issues a fresh store fetch and
returns what the store replies; the partial update is never merged into
the cached copy locally (the entry is simply gone). -/
theorem C7_edit_evicts (id : Prim) (nd : Doc) (c : Cache) (v : Option Doc) :
    (editById true id nd (.ok ()) c).calls =
      [StoreCall.update (Prim.toKey id) nd] ∧
    (editById true id nd (.ok ()) c).cache = kvErase c (Prim.toKey id) ∧
    kvLookup (editById true id nd (.ok ()) c).cache (Prim.toKey id) =
      none ∧
    (getById true id (.ok v) (editById true id nd (.ok ()) c).cache).calls =
      [StoreCall.get (Prim.toKey id)] ∧
    (getById true id (.ok v) (editById true id nd (.ok ()) c).cache).out =
      .ok v := by
  have h : kvLookup (kvErase c (Prim.toKey id)) (Prim.toKey id) = none :=
    kvLookup_erase_self _ _
  have h2 : getById true id (.ok v) (kvErase c (Prim.toKey id)) =
      ⟨.ok v,
        kvInsert (kvErase c (Prim.toKey id)) (Prim.toKey id) (clone v),
        [StoreCall.get (Prim.toKey id)]⟩ := by
    unfold getById
    rw [h]
    rfl
  refine ⟨rfl, rfl, h, ?_, ?_⟩ <;>
    rw [show (editById true id nd (.ok ()) c).cache =
      kvErase c (Prim.toKey id) from rfl, h2]

/-- C8: for every operation, when the issued store call fails the cache
partition is exactly as it was before the call (no cache write precedes
store success) and the store error propagates to the caller
untranslated.  For `add` this presupposes the id validation passed (else
the call fails before any store call), and for `getById` that the call
reaches the store (caching disabled or no partition entry). -/
theorem C8_store_failure_no_cache_write (uc : Bool) (e : Nat) (d : Doc)
    (id : Prim) (nd : Doc) (p : GetByParams) (c : Cache) :
    ((Doc.get d "id").isSome = true →
      (add uc d (.error e) c).out = .error (.store e) ∧
      (add uc d (.error e) c).cache = c) ∧
    ((uc = true → kvLookup c (Prim.toKey id) = none) →
      (getById uc id (.error e) c).out = .error (.store e) ∧
      (getById uc id (.error e) c).cache = c) ∧
    ((getBy uc p (.error e) c).out = .error (.store e) ∧
      (getBy uc p (.error e) c).cache = c) ∧
    ((getAll uc (.error e) c).out = .error (.store e) ∧
      (getAll uc (.error e) c).cache = c) ∧
    ((deleteById uc id (.error e) c).out = .error (.store e) ∧
      (deleteById uc id (.error e) c).cache = c) ∧
    ((editById uc id nd (.error e) c).out = .error (.store e) ∧
      (editById uc id nd (.error e) c).cache = c) := by
  refine ⟨?_, ?_, ⟨rfl, rfl⟩, ⟨rfl, rfl⟩, ⟨rfl, rfl⟩, ⟨rfl, rfl⟩⟩
  · intro h
    cases hd : Doc.get d "id" with
    | none => rw [hd] at h; cases h
    | some idv =>
      constructor <;> (unfold add; rw [hd])
  · intro h
    cases uc with
    | false => exact ⟨rfl, rfl⟩
    | true =>
      have h0 := h rfl
      constructor <;> (unfold getById; rw [h0])

/-- C8 witness: the two conditioned conjuncts at concrete inputs. -/
theorem C8_store_failure_no_cache_write_witness :
    ((Doc.get [("id", Prim.pstr "u1")] "id").isSome = true ∧
      ((add true [("id", Prim.pstr "u1")] (.error 7) []).out =
          .error (.store 7) ∧
        (add true [("id", Prim.pstr "u1")] (.error 7) []).cache = [])) ∧
    ((true = true → kvLookup ([] : Cache) (Prim.toKey (Prim.pstr "u1")) =
        none) ∧
      ((getById true (Prim.pstr "u1") (.error 7) []).out =
          .error (.store 7) ∧
        (getById true (Prim.pstr "u1") (.error 7) []).cache = [])) :=
  ⟨⟨by decide,
    (C8_store_failure_no_cache_write true 7 [("id", Prim.pstr "u1")]
      (Prim.pstr "u1") [] ⟨none, none, none⟩ []).1 (by decide)⟩,
   ⟨fun _ => rfl,
    (C8_store_failure_no_cache_write true 7 [("id", Prim.pstr "u1")]
      (Prim.pstr "u1") [] ⟨none, none, none⟩ []).2.1 (fun _ => rfl)⟩⟩

/-- C9: for every document `d` with defined id, `add(d)` followed by
`getById` of that id with caching enabled returns a value deep-equal to
`d` and issues no store fetch on the second call. -/
theorem C9_add_then_getById (d : Doc) (idv : Prim) (c : Cache)
    (reply2 : Except Nat (Option Doc)) (h : Doc.get d "id" = some idv) :
    (getById true idv reply2 (add true d (.ok ()) c).cache).out =
      .ok (some d) ∧
    (getById true idv reply2 (add true d (.ok ()) c).cache).calls = [] := by
  have hc : (add true d (.ok ()) c).cache =
      kvInsert c (Prim.toKey idv) (some d) := by
    unfold add
    rw [h]
    rfl
  have hl : kvLookup (kvInsert c (Prim.toKey idv) (some d))
      (Prim.toKey idv) = some (some d) := kvLookup_insert_self _ _ _
  rw [hc]
  constructor <;> (unfold getById; rw [hl]; try rfl)

/-- C9 witness: adding a concrete user document and reading it back from
the cache. -/
theorem C9_add_then_getById_witness :
    Doc.get [("id", Prim.pstr "u1"), ("name", Prim.pstr "A")] "id" =
      some (Prim.pstr "u1") ∧
    ((getById true (Prim.pstr "u1") (.ok none)
        (add true [("id", Prim.pstr "u1"), ("name", Prim.pstr "A")]
          (.ok ()) []).cache).out =
      .ok (some [("id", Prim.pstr "u1"), ("name", Prim.pstr "A")]) ∧
    (getById true (Prim.pstr "u1") (.ok none)
        (add true [("id", Prim.pstr "u1"), ("name", Prim.pstr "A")]
          (.ok ()) []).cache).calls = []) :=
  ⟨by decide,
    C9_add_then_getById [("id", Prim.pstr "u1"), ("name", Prim.pstr "A")]
      (Prim.pstr "u1") [] (.ok none) (by decide)⟩

/-- C10: with caching enabled, `clearCache` with a falsy key (0, the
empty string, false, null) empties the whole partition exactly as the
no-argument call does, while only a truthy key removes just that single
entry (all other entries are untouched). -/
theorem C10_clearCache_falsy_key (c : Cache) (k : Prim) :
    (Prim.truthy k = false →
      clearCache true (some k) c = [] ∧
      clearCache true (some k) c = clearCache true none c) ∧
    (Prim.truthy k = true →
      kvLookup (clearCache true (some k) c) (Prim.toKey k) = none ∧
      ∀ k2, k2 ≠ Prim.toKey k →
        kvLookup (clearCache true (some k) c) k2 = kvLookup c k2) := by
  constructor
  · intro h
    constructor <;>
      · show (if Prim.truthy k = true then kvErase c (Prim.toKey k)
            else []) = _
        rw [h]
        rfl
  · intro h
    have hc : clearCache true (some k) c = kvErase c (Prim.toKey k) := by
      show (if Prim.truthy k = true then kvErase c (Prim.toKey k)
          else []) = _
      rw [h]
      rfl
    rw [hc]
    exact ⟨kvLookup_erase_self _ _,
      fun k2 h2 => kvLookup_erase_ne _ _ _ h2⟩

/-- C10 witness: the falsy key 0 empties a nonempty partition like the
no-argument call, and the truthy key "a" removes exactly its own
entry. -/
theorem C10_clearCache_falsy_key_witness :
    (Prim.truthy (Prim.pnum 0) = false ∧
      (clearCache true (some (Prim.pnum 0)) [("a", some []), ("b", none)] =
        [] ∧
      clearCache true (some (Prim.pnum 0)) [("a", some []), ("b", none)] =
        clearCache true none [("a", some []), ("b", none)])) ∧
    (Prim.truthy (Prim.pstr "a") = true ∧
      (kvLookup (clearCache true (some (Prim.pstr "a"))
          [("a", some []), ("b", none)]) (Prim.toKey (Prim.pstr "a")) =
        none ∧
      ∀ k2, k2 ≠ Prim.toKey (Prim.pstr "a") →
        kvLookup (clearCache true (some (Prim.pstr "a"))
            [("a", some []), ("b", none)]) k2 =
          kvLookup [("a", some []), ("b", none)] k2)) :=
  ⟨⟨by decide,
    (C10_clearCache_falsy_key [("a", some []), ("b", none)]
      (Prim.pnum 0)).1 (by decide)⟩,
   ⟨by decide,
    (C10_clearCache_falsy_key [("a", some []), ("b", none)]
      (Prim.pstr "a")).2 (by decide)⟩⟩

/-- C3 counterexample: with a tombstone for id "a" in the partition and a
store holding only document "b", `getAll` leaves the stale "a" entry in
the partition (the partition does not equal the fetched set) and even
returns its tombstone value in the result list. -/
theorem C3_stale_entry_counterexample :
    kvLookup (getAll true (.ok [("b", [("id", Prim.pstr "b")])])
        [("a", none)]).cache "a" = some none ∧
    "a" ∉ (([("b", [("id", Prim.pstr "b")])] :
        List (String × Doc)).map (fun pr => pr.1)) ∧
    (getAll true (.ok [("b", [("id", Prim.pstr "b")])])
        [("a", none)]).out =
      .ok [none, some [("id", Prim.pstr "b")]] :=
  ⟨rfl, by decide, rfl⟩

/-- C3 (amended): `getAll` with caching enabled merges the fetched set
into the partition — every fetched id is overwritten with a fresh copy,
but prior entries for ids not in the fetched set (tombstones included)
are retained — and returns the list of all partition values; with
caching disabled it returns the raw fetched list and leaves the cache
alone.  It always issues the store fetch and never reads the cache to
produce its input. -/
theorem C3_getAll_merges_partition (snap : List (String × Doc)) (c : Cache)
    (hnd : (snap.map (fun pr => pr.1)).Nodup) :
    (∀ k, k ∉ snap.map (fun pr => pr.1) →
      kvLookup (getAll true (.ok snap) c).cache k = kvLookup c k) ∧
    (∀ pr ∈ snap,
      kvLookup (getAll true (.ok snap) c).cache pr.1 = some (some pr.2)) ∧
    (getAll true (.ok snap) c).out =
      .ok (kvValues (getAll true (.ok snap) c).cache) ∧
    (getAll true (.ok snap) c).calls = [StoreCall.allDocs] ∧
    (getAll false (.ok snap) c).out =
      .ok (snap.map (fun pr => some pr.2)) ∧
    (getAll false (.ok snap) c).cache = c := by
  refine ⟨?_, ?_, rfl, rfl, rfl, rfl⟩
  · intro k hk
    exact fillCache_lookup_notin c snap k hk
  · intro pr hpr
    exact fillCache_lookup_mem c snap pr.1 pr.2 hnd (by simpa using hpr)

/-- C3 witness: the amended statement at the concrete counterexample
state (tombstone for "a", fetched set containing only "b"). -/
theorem C3_getAll_merges_partition_witness :
    (([("b", [("id", Prim.pstr "b")])] :
        List (String × Doc)).map (fun pr => pr.1)).Nodup ∧
    ((∀ k, k ∉ ([("b", [("id", Prim.pstr "b")])] :
        List (String × Doc)).map (fun pr => pr.1) →
      kvLookup (getAll true (.ok [("b", [("id", Prim.pstr "b")])])
          [("a", none)]).cache k = kvLookup [("a", none)] k) ∧
    (∀ pr ∈ ([("b", [("id", Prim.pstr "b")])] : List (String × Doc)),
      kvLookup (getAll true (.ok [("b", [("id", Prim.pstr "b")])])
          [("a", none)]).cache pr.1 = some (some pr.2)) ∧
    (getAll true (.ok [("b", [("id", Prim.pstr "b")])])
        [("a", none)]).out =
      .ok (kvValues (getAll true (.ok [("b", [("id", Prim.pstr "b")])])
        [("a", none)]).cache) ∧
    (getAll true (.ok [("b", [("id", Prim.pstr "b")])])
        [("a", none)]).calls = [StoreCall.allDocs] ∧
    (getAll false (.ok [("b", [("id", Prim.pstr "b")])])
        [("a", none)]).out =
      .ok (([("b", [("id", Prim.pstr "b")])] :
        List (String × Doc)).map (fun pr => some pr.2)) ∧
    (getAll false (.ok [("b", [("id", Prim.pstr "b")])])
        [("a", none)]).cache = [("a", none)]) :=
  ⟨by decide,
    C3_getAll_merges_partition [("b", [("id", Prim.pstr "b")])]
      [("a", none)] (by decide)⟩

/-- C1: with caching enabled the cache partition never holds a live
reference to a caller-supplied or returned object.  In the heap
embedding: (add) the entry written by `add` is a fresh address carrying
the value of the caller object, distinct from the caller address, and
mutating the caller object afterwards does not change what `getById`
returns; (getById, cache hit) the returned address is fresh (not held by
the partition), carries the entry value, the partition is untouched, and
mutating the returned object does not change what a later `getById` of
the same id returns; (getById, miss) the fetched object and the cached
clone are distinct fresh addresses and mutating the returned object does
not change later reads; (getBy, getAll) well-formedness is preserved and
every address handed to the caller is outside the partition. -/
theorem C1_cache_isolation :
    (∀ (c : RCache) (h : Heap) (aIn : Nat) (idv : Prim),
      WFr c h → aIn < h.next → Doc.get (h.val aIn) "id" = some idv →
      kvLookup (addH aIn c h).cache (Prim.toKey idv) =
        some (some h.next) ∧
      (addH aIn c h).heap.val h.next = h.val aIn ∧
      h.next ≠ aIn ∧
      WFr (addH aIn c h).cache (addH aIn c h).heap ∧
      (∀ (d2 : Doc) (reply2 : Option Doc),
        outVal (getByIdH (Prim.toKey idv) reply2 (addH aIn c h).cache
          ((addH aIn c h).heap.write aIn d2)) = some (h.val aIn))) ∧
    (∀ (c : RCache) (h : Heap) (k : String) (a : Nat)
      (reply reply2 : Option Doc) (d2 : Doc),
      WFr c h → kvLookup c k = some (some a) →
      (getByIdH k reply c h).out = some h.next ∧
      h.next ∉ cacheAddrs c ∧
      (getByIdH k reply c h).cache = c ∧
      outVal (getByIdH k reply c h) = some (h.val a) ∧
      outVal (getByIdH k reply2 (getByIdH k reply c h).cache
        ((getByIdH k reply c h).heap.write h.next d2)) = some (h.val a)) ∧
    (∀ (c : RCache) (h : Heap) (k : String) (d d2 : Doc)
      (reply2 : Option Doc),
      WFr c h → kvLookup c k = none →
      (getByIdH k (some d) c h).out = some h.next ∧
      kvLookup (getByIdH k (some d) c h).cache k =
        some (some (h.next + 1)) ∧
      (getByIdH k (some d) c h).heap.val (h.next + 1) = d ∧
      WFr (getByIdH k (some d) c h).cache (getByIdH k (some d) c h).heap ∧
      outVal (getByIdH k reply2 (getByIdH k (some d) c h).cache
        ((getByIdH k (some d) c h).heap.write h.next d2)) = some d) ∧
    (∀ (c : RCache) (h : Heap) (lim : Option Int)
      (snap : List (String × Doc)),
      WFr c h →
      WFr (getByH lim snap c h).cache (getByH lim snap c h).heap ∧
      ∀ r ∈ outAddrs (getByH lim snap c h).out,
        r ∉ cacheAddrs (getByH lim snap c h).cache) ∧
    (∀ (c : RCache) (h : Heap) (snap : List (String × Doc)),
      WFr c h →
      WFr (getAllH snap c h).cache (getAllH snap c h).heap ∧
      ∀ r : Nat, some r ∈ (getAllH snap c h).out →
        r ∉ cacheAddrs (getAllH snap c h).cache) := by
  refine ⟨?_, ?_, ?_, ?_, ?_⟩
  · -- add
    intro c h aIn idv hwf haIn hid
    have hfst : addH aIn c h =
        ⟨.ok (), kvInsert c (Prim.toKey idv) (some (h.alloc (h.val aIn)).1),
          (h.alloc (h.val aIn)).2⟩ := by
      unfold addH
      rw [hid]
    rw [hfst]
    have hl2 : kvLookup
        (kvInsert c (Prim.toKey idv) (some (h.alloc (h.val aIn)).1))
        (Prim.toKey idv) = some (some (h.alloc (h.val aIn)).1) :=
      kvLookup_insert_self _ _ _
    refine ⟨hl2, alloc_val_self _ _, Nat.ne_of_gt haIn, ?_, ?_⟩
    · intro a2 ha2
      rcases cacheAddrs_insert ha2 with rfl | hm
      · exact Nat.lt_succ_self _
      · exact Nat.lt_succ_of_lt (hwf a2 hm)
    · intro d2 reply2
      unfold getByIdH
      rw [hl2]
      simp only [outVal, Option.map_some', alloc_fst, alloc_val_self]
      rw [write_val_ne _ _ _ _ (Nat.ne_of_gt haIn)]
      simp only [alloc_val_self]
  · -- getById, cache hit
    intro c h k a reply reply2 d2 hwf hl
    have ha : a < h.next := hwf a (mem_cacheAddrs_of_lookup hl)
    have hfst : getByIdH k reply c h =
        ⟨some (h.alloc (h.val a)).1, c, (h.alloc (h.val a)).2⟩ := by
      unfold getByIdH
      rw [hl]
    rw [hfst]
    refine ⟨rfl, fun hmem => absurd (hwf _ hmem) (Nat.lt_irrefl _), rfl,
      ?_, ?_⟩
    · simp only [outVal, Option.map_some', alloc_fst, alloc_val_self]
    · show outVal (getByIdH k reply2 c
        (((h.alloc (h.val a)).2).write h.next d2)) = some (h.val a)
      unfold getByIdH
      rw [hl]
      simp only [outVal, Option.map_some', alloc_fst, alloc_val_self]
      rw [write_val_ne _ _ _ _ (Nat.ne_of_lt ha), alloc_val_lt _ _ _ ha]
  · -- getById, cache miss with a found document
    intro c h k d d2 reply2 hwf hl
    have hfst : getByIdH k (some d) c h =
        ⟨some (h.alloc d).1,
          kvInsert c k (some ((h.alloc d).2.alloc d).1),
          ((h.alloc d).2.alloc d).2⟩ := by
      unfold getByIdH
      rw [hl]
    rw [hfst]
    have hl2 : kvLookup (kvInsert c k (some ((h.alloc d).2.alloc d).1)) k =
        some (some ((h.alloc d).2.alloc d).1) := kvLookup_insert_self _ _ _
    refine ⟨rfl, hl2, alloc_val_self _ _, ?_, ?_⟩
    · intro a2 ha2
      rcases cacheAddrs_insert ha2 with rfl | hm
      · exact Nat.lt_succ_self _
      · exact Nat.lt_succ_of_lt (Nat.lt_succ_of_lt (hwf a2 hm))
    · show outVal (getByIdH k reply2
        (kvInsert c k (some ((h.alloc d).2.alloc d).1))
        ((((h.alloc d).2.alloc d).2).write h.next d2)) = some d
      unfold getByIdH
      rw [hl2]
      simp only [outVal, Option.map_some', alloc_fst, alloc_val_self]
      rw [alloc_next]
      rw [write_val_ne _ _ _ _ (Nat.succ_ne_self h.next)]
      exact congrArg some (alloc_val_self _ _)
  · -- getBy
    intro c h lim snap hwf
    have hwf1 := cachePhase_wf snap c h hwf
    have hdata := cachePhase_data_lt snap c h
    rcases hq : cachePhase snap c h with ⟨c1, h1, data⟩
    rw [hq] at hwf1 hdata
    simp only [getByH, hq]
    by_cases hl : lim = some 1
    · simp only [hl, if_pos]
      rcases data with _ | ⟨a, _ | ⟨b, l2⟩⟩
      · exact ⟨hwf1, fun r hr => absurd hr (List.not_mem_nil r)⟩
      · refine ⟨WFr_of_le hwf1 (Nat.le_succ _), ?_⟩
        intro r hr hmem
        rw [show r = ((h1 : Heap).alloc (h1.val a)).1 from
          List.mem_singleton.mp hr] at hmem
        exact absurd (hwf1 _ hmem) (Nat.lt_irrefl _)
      · refine ⟨WFr_of_le hwf1 (allocCopies_next_le _ _), ?_⟩
        intro r hr hmem
        exact absurd (hwf1 r hmem)
          (Nat.not_lt.mpr (allocCopies_out_ge _ _ r hr))
    · simp only [hl, if_neg, if_false]
      refine ⟨WFr_of_le hwf1 (allocCopies_next_le _ _), ?_⟩
      intro r hr hmem
      exact absurd (hwf1 r hmem)
        (Nat.not_lt.mpr (allocCopies_out_ge _ _ r hr))
  · -- getAll
    intro c h snap hwf
    have hwf1 := cachePhase_wf snap c h hwf
    rcases hq : cachePhase snap c h with ⟨c1, h1, data⟩
    rw [hq] at hwf1
    simp only [getAllH, hq]
    refine ⟨WFr_of_le hwf1 (valuesClone_next_le _ _), ?_⟩
    intro r hr hmem
    exact absurd (hwf1 r hmem)
      (Nat.not_lt.mpr (valuesClone_out_ge _ _ r hr))

/-- C1 witness: the cache-hit conjunct at a concrete one-entry partition
and one-object heap. -/
theorem C1_cache_isolation_witness :
    WFr wCache wHeap ∧
    kvLookup wCache "x" = some (some 0) ∧
    ((getByIdH "x" none wCache wHeap).out = some wHeap.next ∧
    wHeap.next ∉ cacheAddrs wCache ∧
    (getByIdH "x" none wCache wHeap).cache = wCache ∧
    outVal (getByIdH "x" none wCache wHeap) = some (wHeap.val 0) ∧
    outVal (getByIdH "x" none (getByIdH "x" none wCache wHeap).cache
      ((getByIdH "x" none wCache wHeap).heap.write wHeap.next [])) =
        some (wHeap.val 0)) :=
  ⟨by decide, by decide,
    C1_cache_isolation.2.1 wCache wHeap "x" 0 none none []
      (by decide) (by decide)⟩

end FFH
